import Mathlib

/-!
Verification of the game logic of the B2D binary/decimal quiz game
(single source file `src/App.tsx`).

The development shallowly embeds the game's pure logic:
  * `GameStats` / `applyResult` — the `setStats` updater inside `checkAnswer`
    (App.tsx lines 68–78);
  * `startGameStats` — the `setStats` updater inside `startGame` (lines 90–96);
  * `endGameUpdate` — the high-score logic of `endGame` (lines 100–107);
  * `generateNewNumber` — the random value draw (lines 38–41), with the
    entropy source `Math.random()` modelled as a rational argument `r`;
  * `jsParseInt`, `jsParseIntRadix2` — ECMAScript `parseInt` with the radix
    argument absent resp. equal to 2, on `List Char` inputs;
  * `formatBinary` — `num.toString(2).padStart(difficulty, '0')` (lines 50–52);
  * `checkAnswerIsCorrect` — the `isCorrect` computation of `checkAnswer`
    (lines 59–64);
  * `initHighScore` — `parseInt(localStorage.getItem(key) || '0')` (line 35);
  * `handleKeyPressSubmits` / `submitButtonDisabled` — the guards of the two
    submission triggers (lines 129–133 and line 373).

Strings are modelled as `List Char`; the JavaScript `NaN` result of a failed
`parseInt` is modelled as `Option.none` (in JavaScript `NaN === x` is false
for every `x`, and `none == some x` is likewise always false).
-/

/-- The `GameStats` record of App.tsx (lines 8–15). All fields are natural
numbers; the source only ever stores non-negative integers in them. -/
structure GameStats where
  score : ℕ
  streak : ℕ
  maxStreak : ℕ
  totalCorrect : ℕ
  totalAnswered : ℕ
  highScore : ℕ
deriving DecidableEq, Repr

/-- The `setStats` updater of `checkAnswer` (App.tsx lines 68–78): builds
`newStats` by spreading `prev` and overriding `totalAnswered`, `totalCorrect`,
`streak` and `score`, then sets `maxStreak` to
`Math.max(newStats.maxStreak, newStats.streak)` where `newStats.maxStreak`
is still `prev.maxStreak` from the spread. -/
def applyResult (prev : GameStats) (isCorrect : Bool) : GameStats :=
  let newStats : GameStats :=
    { prev with
      totalAnswered := prev.totalAnswered + 1
      totalCorrect := prev.totalCorrect + (if isCorrect then 1 else 0)
      streak := if isCorrect then prev.streak + 1 else 0
      score := prev.score + (if isCorrect then 10 + prev.streak * 2 else 0) }
  { newStats with maxStreak := max newStats.maxStreak newStats.streak }

/-- The `setStats` updater of `startGame` (App.tsx lines 90–96): spreads
`prev` and zeroes `score`, `streak`, `totalCorrect`, `totalAnswered`.
Note that neither `maxStreak` nor `highScore` is overridden. -/
def startGameStats (prev : GameStats) : GameStats :=
  { prev with score := 0, streak := 0, totalCorrect := 0, totalAnswered := 0 }

/-- Folding a whole session's sequence of answer results through the scorer. -/
def applyResults (s : GameStats) (results : List Bool) : GameStats :=
  results.foldl applyResult s

/-- The sequence of `streak` values attained after each answer of `results`,
starting from streak value `streak`. -/
def streakTrace (streak : ℕ) : List Bool → List ℕ
  | [] => []
  | b :: bs =>
    let s := if b then streak + 1 else 0
    s :: streakTrace s bs

/-- Maximum of a list of naturals (0 for the empty list). -/
def maxOfList (l : List ℕ) : ℕ := l.foldr max 0

/-- The high-score logic of `endGame` (App.tsx lines 100–107). First component
of the result: the in-memory `highScore` after the transition; second
component: the value held by the persistence collaborator (`localStorage`)
after the transition, where `stored` is the value it held before. -/
def endGameUpdate (score highScore stored : ℕ) : ℕ × ℕ :=
  let newHighScore := max score highScore
  if newHighScore > highScore then (newHighScore, newHighScore)
  else (highScore, stored)

/-- Claim C1: the scorer update of `checkAnswer` satisfies: on a correct
answer `totalAnswered`, `totalCorrect` and `streak` each grow by 1 and
`score` grows by exactly `10 + 2 × (streak before this answer)`; on an
incorrect answer `totalAnswered` grows by 1, `streak` becomes 0 and `score`
is unchanged; and in both cases the new `maxStreak` is
`max (old maxStreak) (new streak)`. -/
theorem c1_scorer_update (s : GameStats) (b : Bool) :
    (applyResult s b).totalAnswered = s.totalAnswered + 1 ∧
    (applyResult s b).maxStreak = max s.maxStreak ((applyResult s b).streak) ∧
    (applyResult s true).totalCorrect = s.totalCorrect + 1 ∧
    (applyResult s true).streak = s.streak + 1 ∧
    (applyResult s true).score = s.score + (10 + 2 * s.streak) ∧
    (applyResult s false).totalAnswered = s.totalAnswered + 1 ∧
    (applyResult s false).streak = 0 ∧
    (applyResult s false).score = s.score := by
  cases b <;> simp [applyResult] <;> omega

/-- Claim C10: the per-answer scoring path neither writes `highScore` (the
updated record carries the old value) nor reads it (replacing `highScore` by
any value `h` before the update commutes with the update). -/
theorem c10_highScore_frame (s : GameStats) (b : Bool) :
    (applyResult s b).highScore = s.highScore ∧
    ∀ h : ℕ, applyResult { s with highScore := h } b
      = { applyResult s b with highScore := h } := by
  refine ⟨by cases b <;> simp [applyResult], ?_⟩
  intro h
  cases s
  cases b <;> simp [applyResult]

theorem maxStreak_applyResults (results : List Bool) :
    ∀ s : GameStats, (applyResults s results).maxStreak
      = max s.maxStreak (maxOfList (streakTrace s.streak results)) := by
  induction results with
  | nil => intro s; simp [applyResults, streakTrace, maxOfList]
  | cons b bs ih =>
    intro s
    have hstep : applyResults s (b :: bs) = applyResults (applyResult s b) bs := by
      simp [applyResults]
    rw [hstep, ih]
    have hmax : (applyResult s b).maxStreak
        = max s.maxStreak (if b then s.streak + 1 else 0) := by
      cases b <;> simp [applyResult]
    have hstreak : (applyResult s b).streak = (if b then s.streak + 1 else 0) := by
      cases b <;> simp [applyResult]
    rw [hmax, hstreak]
    simp only [streakTrace, maxOfList, List.foldr_cons]
    omega

/-- Claim C8, counterexample: starting a game from statistics whose
`maxStreak` is 3 (as after a session with three consecutive correct answers)
leaves `maxStreak` at 3, not 0: the start transition does not reset it. -/
theorem c8_counterexample :
    (startGameStats
      { score := 0, streak := 0, maxStreak := 3, totalCorrect := 0,
        totalAnswered := 0, highScore := 0 }).maxStreak ≠ 0 := by
  decide

/-- Claim C8 (amended): the start transition leaves `maxStreak` unchanged
(it is not reset to 0), and after any sequence of answers following a start
the `maxStreak` equals the maximum of its carried-over pre-start value and
every streak value attained since that start: it is the high-water mark of
`streak` since component initialization, not within the session. -/
theorem c8_amended_maxStreak (s : GameStats) (results : List Bool) :
    (startGameStats s).maxStreak = s.maxStreak ∧
    (applyResults (startGameStats s) results).maxStreak
      = max s.maxStreak (maxOfList (streakTrace 0 results)) := by
  constructor
  · simp [startGameStats]
  · rw [maxStreak_applyResults]
    simp [startGameStats]

/-- Claim C6: with the persisted value equal to the in-memory high score
before the transition, the `endGame` transition makes both the in-memory and
the persisted high score equal `max (final score) (previous high score)`;
when the final score does not exceed the previous high score both are left
unchanged; and the in-memory high score never decreases. -/
theorem c6_endGame_highScore (score highScore stored : ℕ)
    (h : stored = highScore) :
    (endGameUpdate score highScore stored).1 = max score highScore ∧
    (endGameUpdate score highScore stored).2 = max score highScore ∧
    (score ≤ highScore → endGameUpdate score highScore stored = (highScore, stored)) ∧
    highScore ≤ (endGameUpdate score highScore stored).1 := by
  subst h
  simp only [endGameUpdate]
  split_ifs with hgt
  · exact ⟨rfl, rfl, fun hle => absurd hgt (by omega), le_max_right _ _⟩
  · have hmax : max score stored = stored := by omega
    exact ⟨by simp [hmax], by simp [hmax], fun _ => rfl, le_refl _⟩

/-- Claim C6, witness: a session ending with score 80 against stored high
score 50 yields 80 both in memory and persisted. -/
theorem c6_endGame_highScore_witness :
    (endGameUpdate 80 50 50).1 = max 80 50 ∧
    (endGameUpdate 80 50 50).2 = max 80 50 ∧
    (80 ≤ 50 → endGameUpdate 80 50 50 = (50, 50)) ∧
    50 ≤ (endGameUpdate 80 50 50).1 :=
  c6_endGame_highScore 80 50 50 rfl

/-- ASCII whitespace, the characters `parseInt` and `trim` skip that can
occur in this game's text inputs. -/
def isWhitespace (c : Char) : Bool :=
  c == ' ' || c == '\t' || c == '\n' || c == '\r'

/-- Decimal digit test, as in the digit scan of `parseInt` with radix 10. -/
def isDecDigit (c : Char) : Bool :=
  48 ≤ c.toNat && c.toNat ≤ 57

/-- Value of a decimal digit character. -/
def digitVal (c : Char) : ℕ := c.toNat - 48

/-- Binary digit test: the regular expression class `[01]` of
`userInput.replace(/[^01]/g, '')` and the digit scan of `parseInt(·, 2)`. -/
def isBinDigit (c : Char) : Bool :=
  c == '0' || c == '1'

/-- Hexadecimal digit test, for the `0x`-marked branch of `parseInt`. -/
def isHexDigit (c : Char) : Bool :=
  isDecDigit c || (97 ≤ c.toNat && c.toNat ≤ 102) || (65 ≤ c.toNat && c.toNat ≤ 70)

/-- Value of a hexadecimal digit character. -/
def hexDigitVal (c : Char) : ℕ :=
  if isDecDigit c then c.toNat - 48
  else if 97 ≤ c.toNat then c.toNat - 87
  else c.toNat - 55

/-- Value of a string of decimal digits. -/
def decValue (ds : List Char) : ℕ :=
  ds.foldl (fun acc c => 10 * acc + digitVal c) 0

/-- Value of a string of binary digits. -/
def binValue (ds : List Char) : ℕ :=
  ds.foldl (fun acc c => 2 * acc + (if c == '1' then 1 else 0)) 0

/-- Value of a string of hexadecimal digits. -/
def hexValue (ds : List Char) : ℕ :=
  ds.foldl (fun acc c => 16 * acc + hexDigitVal c) 0

/-- The optional sign step of `parseInt`: consume one leading `-` or `+`. -/
def splitSign : List Char → ℤ × List Char
  | [] => (1, [])
  | c :: rest =>
    if c == '-' then (-1, rest)
    else if c == '+' then (1, rest)
    else (1, c :: rest)

/-- Whether the remaining input begins with the hexadecimal marker `0x`
or `0X`, which `parseInt` honours when no radix argument is given. -/
def isHexMarked : List Char → Bool
  | a :: b :: _ => a == '0' && (b == 'x' || b == 'X')
  | _ => false

/-- ECMAScript `parseInt(s)` with the radix argument absent, as used on
line 60 of App.tsx: skip leading whitespace, consume an optional sign,
switch to base 16 when the rest starts with `0x`/`0X`, then take the longest
leading run of digits of the chosen base; `none` models the `NaN` result
when that run is empty. -/
def jsParseInt (s : List Char) : Option ℤ :=
  let t := s.dropWhile isWhitespace
  let p := splitSign t
  if isHexMarked p.2 then
    let ds := (p.2.drop 2).takeWhile isHexDigit
    if ds.isEmpty then none else some (p.1 * (hexValue ds : ℤ))
  else
    let ds := p.2.takeWhile isDecDigit
    if ds.isEmpty then none else some (p.1 * (decValue ds : ℤ))

/-- ECMAScript `parseInt(s, 2)` as used on line 63 of App.tsx: skip leading
whitespace, consume an optional sign, take the longest leading run of binary
digits; `none` models the `NaN` result when that run is empty. (With an
explicit radix of 2 no `0x` marker is recognised.) -/
def jsParseIntRadix2 (s : List Char) : Option ℤ :=
  let t := s.dropWhile isWhitespace
  let p := splitSign t
  let ds := p.2.takeWhile isBinDigit
  if ds.isEmpty then none else some (p.1 * (binValue ds : ℤ))

/-- Minimal binary digit string of a natural number, most significant digit
first; empty for 0. This is the recursion behind `Number.toString(2)`. -/
def natToBin : ℕ → List Char
  | 0 => []
  | n + 1 => natToBin ((n + 1) / 2) ++ [if (n + 1) % 2 == 1 then '1' else '0']
decreasing_by
  exact Nat.div_lt_self (Nat.succ_pos n) (by norm_num)

/-- JavaScript `num.toString(2)` for a non-negative integer: minimal binary
digits, and the single digit `0` for 0. -/
def toString2 (n : ℕ) : List Char :=
  if n = 0 then ['0'] else natToBin n

/-- JavaScript `String.prototype.padStart(len, c)` for a one-character pad. -/
def padStart (s : List Char) (len : ℕ) (c : Char) : List Char :=
  List.replicate (len - s.length) c ++ s

/-- `formatBinary` of App.tsx (lines 50–52):
`num.toString(2).padStart(difficulty, '0')`. -/
def formatBinary (difficulty num : ℕ) : List Char :=
  padStart (toString2 num) difficulty '0'

/-- JavaScript `String.prototype.trim()` restricted to ASCII whitespace. -/
def trimChars (s : List Char) : List Char :=
  ((s.dropWhile isWhitespace).reverse.dropWhile isWhitespace).reverse

/-- The two conversion directions a round can have. -/
inductive RoundMode
  | binaryToDecimal
  | decimalToBinary
deriving DecidableEq, Repr

/-- The `isCorrect` computation of `checkAnswer` (App.tsx lines 57–64):
in binary→decimal mode, `parseInt(userInput) === currentNumber`; in
decimal→binary mode, filter the input to `[01]` characters and compare
`parseInt(binaryInput, 2) === currentNumber`. A `NaN` parse (`none`) never
equals `currentNumber`. -/
def checkAnswerIsCorrect (mode : RoundMode) (currentNumber : ℕ)
    (userInput : List Char) : Bool :=
  match mode with
  | .binaryToDecimal => jsParseInt userInput == some (currentNumber : ℤ)
  | .decimalToBinary =>
    jsParseIntRadix2 (userInput.filter isBinDigit) == some (currentNumber : ℤ)

/-- Claim C4: in a decimal→binary round, an input whose filtered form has no
binary digits is judged incorrect (the empty-string parse is `NaN`, modelled
as `none`, which never equals the round's value) — validation is a total
function, so no parse failure propagates. -/
theorem c4_no_binary_digits_incorrect (n : ℕ) (input : List Char)
    (hne : input ≠ []) (hfil : input.filter isBinDigit = []) :
    checkAnswerIsCorrect RoundMode.decimalToBinary n input = false := by
  simp only [checkAnswerIsCorrect, hfil]
  have h0 : jsParseIntRadix2 [] = none := rfl
  rw [h0]
  rfl

/-- Claim C4, witness: the input `abc` is non-empty, filters to nothing, and
is judged incorrect for the round value 5. -/
theorem c4_no_binary_digits_incorrect_witness :
    checkAnswerIsCorrect RoundMode.decimalToBinary 5 ['a', 'b', 'c'] = false :=
  c4_no_binary_digits_incorrect 5 ['a', 'b', 'c'] (by decide) (by decide)

theorem natToBin_all_bin (n : ℕ) : ∀ c ∈ natToBin n, isBinDigit c = true := by
  induction n using Nat.strong_induction_on with
  | _ n ih =>
    match n with
    | 0 =>
      intro c hc
      simp only [natToBin] at hc
      simp at hc
    | m + 1 =>
      intro c hc
      simp only [natToBin] at hc
      rcases List.mem_append.1 hc with h | h
      · exact ih ((m + 1) / 2) (Nat.div_lt_self (Nat.succ_pos m) (by norm_num)) c h
      · simp only [List.mem_singleton] at h
        subst h
        split <;> decide

theorem binFold_natToBin (n : ℕ) : ∀ a : ℕ,
    (natToBin n).foldl (fun acc c => 2 * acc + (if c == '1' then 1 else 0)) a
      = a * 2 ^ (natToBin n).length + n := by
  induction n using Nat.strong_induction_on with
  | _ n ih =>
    match n with
    | 0 => intro a; simp [natToBin]
    | m + 1 =>
      intro a
      have hq : (m + 1) / 2 < m + 1 := Nat.div_lt_self (Nat.succ_pos m) (by norm_num)
      have hm := Nat.div_add_mod (m + 1) 2
      simp only [natToBin, List.foldl_append, List.length_append, List.foldl_cons,
        List.foldl_nil, List.length_cons, List.length_nil]
      rw [ih ((m + 1) / 2) hq a]
      have hkey : a * 2 ^ ((natToBin ((m + 1) / 2)).length + (0 + 1))
          = (a * 2 ^ (natToBin ((m + 1) / 2)).length) * 2 := by ring
      rw [hkey]
      rcases Nat.mod_two_eq_zero_or_one (m + 1) with h2 | h2 <;>
        rw [h2] <;> simp <;> omega

theorem binValue_replicate_zero (k : ℕ) :
    (List.replicate k '0').foldl
      (fun acc c => 2 * acc + (if c == '1' then 1 else 0)) 0 = 0 := by
  induction k with
  | zero => rfl
  | succ k ih => simpa [List.replicate] using ih

theorem binValue_formatBinary (d v : ℕ) : binValue (formatBinary d v) = v := by
  unfold binValue formatBinary padStart
  rw [List.foldl_append, binValue_replicate_zero]
  by_cases hv : v = 0
  · subst hv; rfl
  · simp only [toString2, hv, if_neg, not_false_eq_true]
    have h := binFold_natToBin v 0
    simpa using h

theorem toString2_ne_nil (v : ℕ) : toString2 v ≠ [] := by
  match v with
  | 0 => decide
  | m + 1 =>
    simp only [toString2, Nat.succ_ne_zero, if_neg, not_false_eq_true, natToBin]
    simp

theorem formatBinary_ne_nil (d v : ℕ) : formatBinary d v ≠ [] := by
  simp only [formatBinary, padStart, ne_eq, List.append_eq_nil]
  intro h
  exact toString2_ne_nil v h.2

theorem formatBinary_all_bin (d v : ℕ) :
    ∀ c ∈ formatBinary d v, isBinDigit c = true := by
  intro c hc
  simp only [formatBinary, padStart] at hc
  rcases List.mem_append.1 hc with h | h
  · rw [List.eq_of_mem_replicate h]; decide
  · by_cases hv : v = 0
    · subst hv
      simp only [toString2, if_pos, List.mem_singleton] at h
      subst h; decide
    · simp only [toString2, hv, if_neg, not_false_eq_true] at h
      exact natToBin_all_bin v c h

theorem binDigit_cases (c : Char) (h : isBinDigit c = true) : c = '0' ∨ c = '1' := by
  simpa [isBinDigit] using h

theorem jsParseIntRadix2_all_bin (l : List Char) (hne : l ≠ [])
    (hall : ∀ c ∈ l, isBinDigit c = true) :
    jsParseIntRadix2 l = some ((binValue l : ℕ) : ℤ) := by
  obtain ⟨c, t, rfl⟩ := List.exists_cons_of_ne_nil hne
  have hc : isBinDigit c = true := hall c (by simp)
  have hws : isWhitespace c = false := by
    rcases binDigit_cases c hc with rfl | rfl <;> decide
  have h1 : (c :: t).dropWhile isWhitespace = c :: t := by
    simp [List.dropWhile, hws]
  have hcm : (c == '-') = false := by
    rcases binDigit_cases c hc with rfl | rfl <;> decide
  have hcp : (c == '+') = false := by
    rcases binDigit_cases c hc with rfl | rfl <;> decide
  have h2 : splitSign (c :: t) = (1, c :: t) := by
    simp [splitSign, hcm, hcp]
  have h3 : (c :: t).takeWhile isBinDigit = c :: t :=
    List.takeWhile_eq_self_iff.mpr hall
  simp [jsParseIntRadix2, h1, h2, h3]

/-- Claim C3: round trip of formatting and validation — for every `bitWidth`
in {4, 8, 12} and every value `v` in `[0, 2 ^ bitWidth − 1]`, submitting
`formatBinary bitWidth v` (the zero-padded binary rendering of `v`) to a
decimal→binary round with value `v` makes the validator return `true`. -/
theorem c3_format_validate_round_trip (d v : ℕ)
    (hd : d = 4 ∨ d = 8 ∨ d = 12) (hv : v ≤ 2 ^ d - 1) :
    checkAnswerIsCorrect RoundMode.decimalToBinary v (formatBinary d v) = true := by
  have hall := formatBinary_all_bin d v
  have hfil : (formatBinary d v).filter isBinDigit = formatBinary d v :=
    List.filter_eq_self.mpr hall
  have hparse := jsParseIntRadix2_all_bin (formatBinary d v)
    (formatBinary_ne_nil d v) hall
  simp only [checkAnswerIsCorrect, hfil, hparse, binValue_formatBinary]
  simp

/-- Claim C3, witness: with `bitWidth = 4` and value 10, the rendering is
`1010` and the validator accepts it. -/
theorem c3_format_validate_round_trip_witness :
    checkAnswerIsCorrect RoundMode.decimalToBinary 10 (formatBinary 4 10) = true :=
  c3_format_validate_round_trip 4 10 (Or.inl rfl) (by norm_num)

/-- `generateNewNumber` of App.tsx (lines 38–41):
`maxValue = Math.pow(2, difficulty) - 1`;
`Math.floor(Math.random() * (maxValue + 1))`. The entropy source
`Math.random()` is modelled by the rational argument `r`; its contract is
`0 ≤ r < 1`. The result is a natural number, hence never below 0. -/
def generateNewNumber (difficulty : ℕ) (r : ℚ) : ℕ :=
  let maxValue : ℚ := 2 ^ difficulty - 1
  ⌊r * (maxValue + 1)⌋₊

/-- Claim C2: for every bit width in {4, 8, 12} and every value the entropy
source can produce (any rational `r` with `0 ≤ r < 1`), the generated round
value lies in `[0, 2 ^ bitWidth − 1]`; as a natural number it is at least 0,
and this theorem bounds it above. -/
theorem c2_generate_in_range (difficulty : ℕ) (r : ℚ)
    (hd : difficulty = 4 ∨ difficulty = 8 ∨ difficulty = 12)
    (h0 : 0 ≤ r) (h1 : r < 1) :
    generateNewNumber difficulty r ≤ 2 ^ difficulty - 1 := by
  have hlt : generateNewNumber difficulty r < 2 ^ difficulty := by
    simp only [generateNewNumber]
    have heq : ((2 : ℚ) ^ difficulty - 1) + 1 = ((2 ^ difficulty : ℕ) : ℚ) := by
      push_cast; ring
    rw [heq]
    rw [Nat.floor_lt (mul_nonneg h0 (by positivity))]
    calc r * ((2 ^ difficulty : ℕ) : ℚ)
        < 1 * ((2 ^ difficulty : ℕ) : ℚ) := by
          apply mul_lt_mul_of_pos_right h1 (by positivity)
      _ = ((2 ^ difficulty : ℕ) : ℚ) := one_mul _
  have hpos : 1 ≤ 2 ^ difficulty := Nat.one_le_two_pow
  omega

/-- Claim C2, witness: with bit width 8 and entropy value 1/2 the generated
value is within `[0, 255]`. -/
theorem c2_generate_in_range_witness :
    generateNewNumber 8 (1 / 2) ≤ 2 ^ 8 - 1 :=
  c2_generate_in_range 8 (1 / 2) (Or.inr (Or.inl rfl)) (by norm_num) (by norm_num)

/-- The claim's reading of "parsed as a base-10 integer with no tolerance
beyond trimming leading/trailing whitespace": after trimming, an optional
sign followed by decimal digits must make up the whole string; anything else
is a parse failure. This definition follows the spec's words, for comparison
with the source's `jsParseInt`. -/
def specStrictDecParse (s : List Char) : Option ℤ :=
  let p := splitSign (trimChars s)
  if !p.2.isEmpty && p.2.all isDecDigit then some (p.1 * (decValue p.2 : ℤ))
  else none

/-- The `highScore` initializer of App.tsx (line 35):
`parseInt(localStorage.getItem('binaryGameHighScore') || '0')`. `getItem`
yields `null` (modelled `none`) when the key is absent; `null` and the empty
string are falsy, so `|| '0'` replaces exactly those by the string `0`. -/
def initHighScore (stored : Option (List Char)) : Option ℤ :=
  jsParseInt
    (match stored with
     | none => ['0']
     | some s => if s = [] then ['0'] else s)

/-- Claim C7, counterexample: the stored value `abc` is corrupt (it is not a
valid base-10 numeral string — strict parsing fails), yet the initial
in-memory high score is not 0: `parseInt('abc')` is `NaN` (modelled `none`),
because `'abc' || '0'` keeps the truthy string `abc`. -/
theorem c7_counterexample :
    specStrictDecParse ['a', 'b', 'c'] = none ∧
    initHighScore (some ['a', 'b', 'c']) ≠ some 0 := by
  decide

/-- Claim C7 (amended): only an absent or empty stored value falls back to
the default `'0'`, making the initial in-memory high score 0; a corrupt
non-empty stored value is parsed as-is, and when it has no parsable numeric
prefix the initial high score is `NaN` (modelled `none`), not 0. -/
theorem c7_amended_absent_or_empty (stored : Option (List Char))
    (h : stored = none ∨ stored = some []) :
    initHighScore stored = some 0 := by
  rcases h with rfl | rfl <;> decide

/-- Claim C7, witness: an absent stored value initializes the high score
to 0. -/
theorem c7_amended_absent_or_empty_witness : initHighScore none = some 0 :=
  c7_amended_absent_or_empty none (Or.inl rfl)

/-- The session states of App.tsx (line 6). -/
inductive GameState
  | menu
  | playing
  | paused
  | gameOver
deriving DecidableEq, BEq, Repr

/-- The key name the window keypress listener compares against. -/
def enterKey : List Char := ['E', 'n', 't', 'e', 'r']

/-- The guard of the window keypress listener (App.tsx lines 129–133):
`checkAnswer` is invoked when `e.key === 'Enter' && gameState === 'playing'
&& userInput.trim()`. The component's `feedback` state is passed in as
`feedback` but — exactly as in the source — does not occur in the
condition: the listener does not consult it. -/
def handleKeyPressSubmits (key : List Char) (gameState : GameState)
    (userInput : List Char) (feedback : Option Bool) : Bool :=
  key == enterKey && gameState == GameState.playing
    && !(trimChars userInput).isEmpty

/-- The `disabled` guard of the submit button (App.tsx line 373):
`!userInput.trim() || feedback !== null`. -/
def submitButtonDisabled (userInput : List Char) (feedback : Option Bool) : Bool :=
  (trimChars userInput).isEmpty || !(feedback == none)

/-- Claim C9 evaluated at the failing input: in the `playing` state, with
feedback `correct` still displayed (`some true`) and the just-submitted
input `1010` still in the box, the submit button is disabled — but an Enter
key signal passes the keypress guard and invokes `checkAnswer` anyway, so a
second submission is processed before the feedback-clear fires, contrary to
the claim. -/
theorem c9_enter_bypasses_feedback_lock :
    handleKeyPressSubmits enterKey GameState.playing ['1', '0', '1', '0']
      (some true) = true ∧
    submitButtonDisabled ['1', '0', '1', '0'] (some true) = true := by
  decide

/-- Claim C5, counterexample: for a binary→decimal round with value 12, the
input `12abc` is accepted by the validator (JavaScript `parseInt` keeps the
longest digit run and ignores the trailing `abc`), although under the
claim's parse — base-10 with no tolerance beyond whitespace trimming — the
input does not parse to 12 at all. -/
theorem c5_counterexample :
    ¬ (checkAnswerIsCorrect RoundMode.binaryToDecimal 12
          ['1', '2', 'a', 'b', 'c'] = true
        ↔ specStrictDecParse ['1', '2', 'a', 'b', 'c'] = some 12) := by
  decide

theorem takeWhile_append_all (p : Char → Bool) (l1 l2 : List Char)
    (h : ∀ c ∈ l1, p c = true) :
    (l1 ++ l2).takeWhile p = l1 ++ l2.takeWhile p := by
  induction l1 with
  | nil => simp
  | cons c t ih =>
    have hc : p c = true := h c (by simp)
    simp only [List.cons_append, List.takeWhile_cons, hc, if_pos]
    rw [ih (fun d hd => h d (by simp [hd]))]

theorem decDigit_not_ws (c : Char) (h : isDecDigit c = true) :
    isWhitespace c = false := by
  have h2 : 48 ≤ c.toNat ∧ c.toNat ≤ 57 := by simpa [isDecDigit] using h
  by_contra hw
  have hw2 : ((c = ' ' ∨ c = '\t') ∨ c = '\n') ∨ c = '\r' := by
    have : isWhitespace c = true := by
      cases hb : isWhitespace c
      · exact absurd hb hw
      · rfl
    simpa [isWhitespace] using this
  rcases hw2 with ((rfl | rfl) | rfl) | rfl <;> revert h2 <;> decide

theorem decDigit_ne (c : Char) (h : isDecDigit c = true) :
    c ≠ '-' ∧ c ≠ '+' ∧ c ≠ 'x' ∧ c ≠ 'X' := by
  have h2 : 48 ≤ c.toNat ∧ c.toNat ≤ 57 := by simpa [isDecDigit] using h
  refine ⟨?_, ?_, ?_, ?_⟩ <;> (rintro rfl; revert h2; decide)

/-- Claim C5 (amended): in a binary→decimal round the validator accepts the
raw input exactly when JavaScript `parseInt` of it equals the round's value;
in particular, for an input that is a non-empty run of decimal digits
followed by trailing text that starts with a non-digit other than `x`/`X`
(the hexadecimal marker), the trailing text is ignored and validation
succeeds if and only if the digit run's value equals the round's value —
trailing garbage is tolerated, not rejected. -/
theorem c5_amended_digit_run (n : ℕ) (ds rest : List Char)
    (h1 : ds ≠ [])
    (h2 : ∀ c ∈ ds, isDecDigit c = true)
    (h3 : rest = [] ∨ ∃ c t, rest = c :: t ∧ isDecDigit c = false
            ∧ c ≠ 'x' ∧ c ≠ 'X') :
    (checkAnswerIsCorrect RoundMode.binaryToDecimal n (ds ++ rest) = true
      ↔ decValue ds = n) := by
  obtain ⟨c0, t0, rfl⟩ := List.exists_cons_of_ne_nil h1
  have hc0 : isDecDigit c0 = true := h2 c0 (by simp)
  have hws := decDigit_not_ws c0 hc0
  have hne := decDigit_ne c0 hc0
  have hdw : ((c0 :: t0) ++ rest).dropWhile isWhitespace = (c0 :: t0) ++ rest := by
    simp [List.dropWhile, hws]
  have hss : splitSign ((c0 :: t0) ++ rest) = (1, (c0 :: t0) ++ rest) := by
    simp [splitSign, List.cons_append, beq_eq_false_iff_ne.mpr hne.1,
      beq_eq_false_iff_ne.mpr hne.2.1]
  have hhm : isHexMarked ((c0 :: t0) ++ rest) = false := by
    cases t0 with
    | nil =>
      rcases h3 with rfl | ⟨c, t, rfl, hcd, hcx, hcX⟩
      · rfl
      · simp [isHexMarked, beq_eq_false_iff_ne.mpr hcx,
          beq_eq_false_iff_ne.mpr hcX]
    | cons c1 t1 =>
      have hc1 : isDecDigit c1 = true := h2 c1 (by simp)
      have hne1 := decDigit_ne c1 hc1
      simp [isHexMarked, beq_eq_false_iff_ne.mpr hne1.2.2.1,
        beq_eq_false_iff_ne.mpr hne1.2.2.2]
  have htw : ((c0 :: t0) ++ rest).takeWhile isDecDigit = c0 :: t0 := by
    rw [takeWhile_append_all isDecDigit (c0 :: t0) rest h2]
    rcases h3 with rfl | ⟨c, t, rfl, hcd, hcx, hcX⟩
    · simp
    · simp [List.takeWhile_cons, hcd]
  simp only [checkAnswerIsCorrect, jsParseInt, hdw, hss, hhm, htw]
  simp

/-- Claim C5, witness for the amended statement: the input `12abc` in a
round with value 12 validates, and its digit run `12` indeed has value 12. -/
theorem c5_amended_digit_run_witness :
    (checkAnswerIsCorrect RoundMode.binaryToDecimal 12
        (['1', '2'] ++ ['a', 'b', 'c']) = true
      ↔ decValue ['1', '2'] = 12) :=
  c5_amended_digit_run 12 ['1', '2'] ['a', 'b', 'c'] (by decide) (by decide)
    (Or.inr ⟨'a', ['b', 'c'], rfl, by decide, by decide, by decide⟩)
